import Mathlib

/-!
Verification of the HTML-to-structured-record extraction core of the
sarkarisetu scraper (`src/sarkarisetu/scrapers/scraper.py`,
`SarkariScraper.scrape_aggregator_list` and
`SarkariScraper.scrape_recruitment_detail`).

The parsed HTML document supplied by the external parsing library is
modelled as a rose tree of element/text nodes (`HNode`); a document is
the list of root nodes.  CSS-selector traversal is modelled as pre-order
enumeration of the tree filtered by tag/attribute predicates, matching
the document-order guarantee of the parsing collaborator.  The two
extraction methods are embedded as pure total functions of the document
plus the source url and capture timestamp (in the Python code the
timestamp is produced by `datetime.utcnow()` at the same call site; it
is threaded as a parameter here so the two runs of the extractor can be
compared).
-/

/-- A node of the parsed HTML tree: an element with a tag name, an
attribute list and children, or a text node. -/
inductive HNode where
  | elem (tag : String) (attrs : List (String × String)) (children : List HNode)
  | text (s : String)

/-- A parsed document: the list of root nodes. -/
abbrev HDoc := List HNode

mutual

/-- `Node.text()` of the parsing library: concatenation of every text
node in the subtree, in document order. -/
def textContent : HNode → String
  | .elem _ _ cs => textContentList cs
  | .text s => s

def textContentList : List HNode → String
  | [] => ""
  | c :: cs => textContent c ++ textContentList cs

end

mutual

/-- All nodes of a subtree in pre-order (the node itself first). -/
def allNodes : HNode → List HNode
  | .elem t a cs => HNode.elem t a cs :: allNodesList cs
  | .text s => [HNode.text s]

def allNodesList : List HNode → List HNode
  | [] => []
  | c :: cs => allNodes c ++ allNodesList cs

end

/-- The strict descendants of a node in pre-order (text nodes have none). -/
def strictDesc : HNode → List HNode
  | .elem _ _ cs => allNodesList cs
  | .text _ => []

/-- Does the node carry the given element tag? -/
def hasTag (t : String) : HNode → Bool
  | .elem tg _ _ => tg == t
  | .text _ => false

/-- The value of an attribute, if the attribute is present. -/
def attrOf (name : String) : HNode → Option String
  | .elem _ attrs _ => attrs.lookup name
  | .text _ => none

/-- `node.attributes.get(name, "")` of the Python code. -/
def attrOr (name : String) (n : HNode) : String :=
  (attrOf name n).getD ""

/-- CSS selector `a[href]`: an anchor element carrying an href attribute. -/
def isAHref (n : HNode) : Bool :=
  hasTag "a" n && (attrOf "href" n).isSome

/-- CSS selector `h2, h3, h4`. -/
def isHeadingNode (n : HNode) : Bool :=
  hasTag "h2" n || hasTag "h3" n || hasTag "h4" n

/-- CSS selector `td, th`. -/
def isCellNode (n : HNode) : Bool :=
  hasTag "td" n || hasTag "th" n

/-- `tree.css(sel)` on the whole document: all matching nodes in
document (pre-order) order. -/
def docCss (doc : HDoc) (p : HNode → Bool) : List HNode :=
  (allNodesList doc).filter p

/-- `node.css_first(sel)`: the first matching strict descendant. -/
def cssFirst (n : HNode) (p : HNode → Bool) : Option HNode :=
  (strictDesc n).find? p

/-- Is `n` (a list of characters) a leading segment of `h`? -/
def leadsWith : List Char → List Char → Bool
  | [], _ => true
  | _ :: _, [] => false
  | a :: as, b :: bs => a == b && leadsWith as bs

/-- Does `n` occur as a contiguous segment of `h`? -/
def occursIn (n : List Char) : List Char → Bool
  | [] => n.isEmpty
  | c :: t => leadsWith n (c :: t) || occursIn n t

/-- Python's `needle in hay` substring test. -/
def strHas (hay needle : String) : Bool :=
  occursIn needle.data hay.data

/-- `\s` of the `re` module (ASCII fragment). -/
def isWs (c : Char) : Bool :=
  c == ' ' || c == '\t' || c == '\n' || c == '\r' || c == '\x0b' || c == '\x0c'

/-- Python's `str.strip()` (ASCII-whitespace fragment): drop leading and
trailing whitespace. -/
def pyStrip (s : String) : String :=
  String.mk (((s.data.dropWhile isWs).reverse.dropWhile isWs).reverse)

/-- Python's `str.lower()` (ASCII fragment). -/
def pyLower (s : String) : String :=
  String.mk (s.data.map Char.toLower)

/-- `\d` of the `re` module (ASCII fragment). -/
def isDig (c : Char) : Bool :=
  '0' ≤ c && c ≤ '9'

/-- `\w` of the `re` module (ASCII fragment). -/
def isWordCh (c : Char) : Bool :=
  c.isAlphanum || c == '_'

/-- The literal marker checked by `scrape_aggregator_list`. -/
def markerStr : String := "Last Date:"

/-- Attempt to match `\s*(\d+\s+\w+\s+\d{4})` against a character list
(what remains after the literal `Last Date:`), returning the text of the
capture group.  The character classes are pairwise disjoint, so greedy
maximal munch is exact for this pattern. -/
def dateTokenAfter (l : List Char) : Option (List Char) :=
  let l1 := l.dropWhile isWs
  let d1 := l1.takeWhile isDig
  if d1.isEmpty then none else
  let r1 := l1.dropWhile isDig
  let s1 := r1.takeWhile isWs
  if s1.isEmpty then none else
  let r2 := r1.dropWhile isWs
  let w1 := r2.takeWhile isWordCh
  if w1.isEmpty then none else
  let r3 := r2.dropWhile isWordCh
  let s2 := r3.takeWhile isWs
  if s2.isEmpty then none else
  match r3.dropWhile isWs with
  | a :: b :: c :: d :: _ =>
      if isDig a && isDig b && isDig c && isDig d then
        some (d1 ++ s1 ++ w1 ++ s2 ++ [a, b, c, d])
      else none
  | _ => none

/-- Helper for `lastDateSearch`: try every start position in turn. -/
def lastDateSearchAux : List Char → Option String
  | [] => none
  | c :: rest =>
      if leadsWith markerStr.data (c :: rest) then
        match dateTokenAfter ((c :: rest).drop markerStr.length) with
        | some tok => some (String.mk tok)
        | none => lastDateSearchAux rest
      else lastDateSearchAux rest

/-- `re.search(r'Last Date:\s*(\d+\s+\w+\s+\d{4})', s)`, returning the
capture group of the leftmost successful match. -/
def lastDateSearch (s : String) : Option String :=
  lastDateSearchAux s.data

/-- One entry of the `items` list built by `scrape_aggregator_list`. -/
structure Item where
  rank : Nat
  title : String
  link : String
  metadata_type : Option String
  metadata_value : Option String
  status_text : Option String
deriving DecidableEq, Repr

/-- The metadata/status classification of lines 59-76 of the scraper:
given the trimmed full text of the `li` and the trimmed anchor text,
produce `(metadata_type, metadata_value, status_text)`. -/
def classifyItem (fullText linkText : String) :
    Option String × Option String × Option String :=
  if strHas fullText markerStr then
    match lastDateSearch fullText with
    | some v => (some "last_date", some v, some "Active")
    | none => (some "last_date", none, none)
  else if strHas linkText "– Out" then (some "status", some "out", some "Out")
  else if strHas linkText "– Pending" then (some "status", some "pending", some "Pending")
  else (none, none, none)

/-- The per-`li` acceptance filter of lines 47-56: take the first
`a[href]` descendant; skip the item when there is none or when the
trimmed anchor text or trimmed href is empty.  On acceptance return
`(link_text, link_url, full_text)`. -/
def liProj (li : HNode) : Option (String × String × String) :=
  match cssFirst li isAHref with
  | none => none
  | some a =>
      let lt := pyStrip (textContent a)
      let lu := pyStrip (attrOr "href" a)
      if lt == "" || lu == "" then none
      else some (lt, lu, pyStrip (textContent li))

/-- The `items` accumulation loop of lines 43-86, carrying the running
rank counter. -/
def buildItems : Nat → List HNode → List Item
  | _, [] => []
  | r, li :: rest =>
      match liProj li with
      | none => buildItems r rest
      | some (lt, lu, ft) =>
          let m := classifyItem ft lt
          { rank := r, title := lt, link := lu,
            metadata_type := m.1, metadata_value := m.2.1,
            status_text := m.2.2 } :: buildItems (r + 1) rest

/-- The dictionary returned by `scrape_aggregator_list`. -/
structure ListingPage where
  url : String
  fetched_at : String
  title : Option String
  items_count : Nat
  items : List Item
deriving DecidableEq, Repr

/-- `SarkariScraper.scrape_aggregator_list`, embedded as a function of
the already-fetched document plus the url and capture timestamp. -/
def scrape_aggregator_list (url fetchedAt : String) (doc : HDoc) : ListingPage :=
  let items := buildItems 1 (docCss doc (hasTag "li"))
  { url := url
    fetched_at := fetchedAt
    title := (docCss doc (hasTag "h1")).head?.map (fun n => pyStrip (textContent n))
    items_count := items.length
    items := items }

mutual

/-- All `table` nodes of a subtree in document order, each paired with
its chain of ancestors, nearest (the parent) first.  `anc` is the chain
of ancestors of the subtree root. -/
def tablePairs (anc : List HNode) : HNode → List (HNode × List HNode)
  | .text _ => []
  | .elem t a cs =>
      (if t == "table" then [(HNode.elem t a cs, anc)] else []) ++
        tablePairsList (HNode.elem t a cs :: anc) cs

def tablePairsList : List HNode → List HNode → List (HNode × List HNode)
  | _, [] => []
  | anc, c :: cs => tablePairs anc c ++ tablePairsList anc cs

end

/-- All `table` nodes of the document with their ancestor chains. -/
def docTablePairs (doc : HDoc) : List (HNode × List HNode) :=
  tablePairsList [] doc

/-- The heading-resolution `while` loop of lines 109-116: walk the
ancestor chain from the parent upward; at the first ancestor with an
`h2, h3, h4` descendant, return that descendant's trimmed text. -/
def findHeading : List HNode → Option String
  | [] => none
  | p :: rest =>
      match cssFirst p isHeadingNode with
      | some h => some (pyStrip (textContent h))
      | none => findHeading rest

/-- The row-extraction loop of lines 119-125: for every `tr` of the
table take the trimmed texts of its `td, th` descendants, keeping only
rows with at least one cell. -/
def extractRows (t : HNode) : List (List String) :=
  ((strictDesc t).filter (hasTag "tr")).filterMap fun tr =>
    let cells := ((strictDesc tr).filter isCellNode).map fun c => pyStrip (textContent c)
    if cells.isEmpty then none else some cells

/-- The `if rows and heading` test of line 127 for one table (Python
truthiness: the heading must be resolved and non-empty, the row list
non-empty): the `(heading, rows)` entry to insert, if any. -/
def tableEntry (p : HNode × List HNode) : Option (String × List (List String)) :=
  match findHeading p.2 with
  | some h => if h == "" || (extractRows p.1).isEmpty then none else some (h, extractRows p.1)
  | none => none

/-- The tables that pass the test of line 127, as `(heading, rows)`
pairs in document order. -/
def includedTables (doc : HDoc) : List (String × List (List String)) :=
  (docTablePairs doc).filterMap tableEntry

/-- Assignment `tables[heading] = rows` on a Python `dict` rendered as
an insertion-ordered association list: replace in place when the key is
present, append otherwise. -/
def dictInsert (k : String) (v : List (List String)) :
    List (String × List (List String)) → List (String × List (List String))
  | [] => [(k, v)]
  | (k1, v1) :: rest =>
      if k1 == k then (k, v) :: rest else (k1, v1) :: dictInsert k v rest

/-- The `tables` dictionary built by lines 106-128. -/
def buildTables (doc : HDoc) : List (String × List (List String)) :=
  (includedTables doc).foldl (fun m e => dictInsert e.1 e.2 m) []

/-- One entry of the `links` list of lines 131-136. -/
structure LinkRec where
  text : String
  url : String
deriving DecidableEq, Repr

/-- The acceptance test of lines 133-136 for one `a[href]` node: keep
it when the trimmed text and trimmed href are non-empty and the text is
longer than 3 characters. -/
def linkOf (a : HNode) : Option LinkRec :=
  if pyStrip (textContent a) != "" && pyStrip (attrOr "href" a) != "" &&
      decide (3 < (pyStrip (textContent a)).length)
  then some ⟨pyStrip (textContent a), pyStrip (attrOr "href" a)⟩ else none

/-- The link-collection loop of lines 131-136. -/
def collectLinks (doc : HDoc) : List LinkRec :=
  (docCss doc isAHref).filterMap linkOf

/-- The keyword list of line 144. -/
def keywords : List String := ["apply", "official", "notification", "admit", "result"]

/-- `any(k in text.lower() for k in keywords)`. -/
def isImportantText (t : String) : Bool :=
  keywords.any fun k => strHas (pyLower t) k

/-- The dictionary returned by `scrape_recruitment_detail`. -/
structure DetailPage where
  url : String
  fetched_at : String
  title : Option String
  tables : List (String × List (List String))
  links_count : Nat
  important_links : List LinkRec
deriving DecidableEq, Repr

/-- `SarkariScraper.scrape_recruitment_detail`, embedded as a function
of the already-fetched document plus the url and capture timestamp. -/
def scrape_recruitment_detail (url fetchedAt : String) (doc : HDoc) : DetailPage :=
  let links := collectLinks doc
  { url := url
    fetched_at := fetchedAt
    title := (docCss doc (hasTag "h1")).head?.map (fun n => pyStrip (textContent n))
    tables := buildTables doc
    links_count := links.length
    important_links := links.filter fun l => isImportantText l.text }

/-- Stated from the spec's heading-resolution wording, for comparison
with the code's loop `findHeading`: take the first (nearest) ancestor
whose strict descendants include some `h2, h3, h4` node, and return the
trimmed text of the first such descendant. -/
def specAncestorHeading (anc : List HNode) : Option String :=
  (anc.find? fun p => !((strictDesc p).filter isHeadingNode).isEmpty).bind fun p =>
    (((strictDesc p).filter isHeadingNode).head?).map fun h => pyStrip (textContent h)

/-- Stated from the spec's wording that the heading associated with a
table is "its nearest preceding heading": the last `h2, h3, h4` node
occurring before the first `table` node in document order. -/
def nearestHeadingBeforeFirstTable (doc : HDoc) : Option String :=
  ((((allNodesList doc).takeWhile fun n => !hasTag "table" n).filter
      isHeadingNode).getLast?).map fun h => pyStrip (textContent h)

/-- Stated from the spec's wording for link importance: the lowercase
text contains one of the keywords and the text is longer than 3
characters (no condition on the href). -/
def claimImportant (t : String) : Bool :=
  (keywords.any fun k => strHas (pyLower t) k) && decide (3 < t.length)

/-- A list item whose full text contains `Last Date:` with no
well-formed date token after it. -/
def C1li : HNode :=
  .elem "li" [] [.elem "a" [("href", "/x")] [.text "Job"], .text " Last Date: soon"]

/-- The one-item document around `C1li`. -/
def C1doc : HDoc := [C1li]

/-- The single item extracted from `C1doc`: `last_date` metadata with
no value and no status. -/
def C1item : Item :=
  { rank := 1, title := "Job", link := "/x", metadata_type := some "last_date",
    metadata_value := none, status_text := none }

/-- The single-item listing scenario of the spec. -/
def C3doc : HDoc :=
  [.elem "li" [] [.elem "a" [("href", "/x")] [.text "Job A – Out"]]]

/-- The table of `C4doc`. -/
def C4table : HNode :=
  .elem "table" [] [.elem "tr" [] [.elem "td" [] [.text "x"]]]

/-- The wrapper div of `C4doc`. -/
def C4div : HNode :=
  .elem "div" [] [.elem "h2" [] [.text "   "], C4table]

/-- A table with one row whose resolved heading trims to the empty
string. -/
def C4doc : HDoc := [C4div]

/-- A table whose only heading in the ancestor subtree comes after the
table in document order. -/
def C5doc : HDoc :=
  [.elem "div" [] [.elem "table" [] [.elem "tr" [] [.elem "td" [] [.text "x"]]],
    .elem "h2" [] [.text "After"]]]

/-- An anchor with keyword-bearing text but a whitespace-only href. -/
def C7a : HNode := .elem "a" [("href", " ")] [.text "Apply Online"]

/-- The one-anchor document around `C7a`. -/
def C7doc : HDoc := [C7a]

/-- A document for the witness of the link classification: one
important and one unimportant collected link. -/
def C7wdoc : HDoc :=
  [.elem "a" [("href", "/z")] [.text "Apply Online"],
   .elem "a" [("href", "/w")] [.text "Somewhere"]]

/-- The table scenario of the spec: a heading sibling before the table. -/
def C4wdoc : HDoc :=
  [.elem "div" [] [.elem "h2" [] [.text "Important Dates"],
    .elem "table" [] [.elem "tr" [] [.elem "td" [] [.text "Start"],
      .elem "td" [] [.text "2026-01-01"]]]]]

/-- A document whose one collected link is not important. -/
def C10doc : HDoc := [.elem "a" [("href", "/y")] [.text "Somewhere"]]

lemma buildItems_map_rank (lis : List HNode) : ∀ r : Nat,
    (buildItems r lis).map Item.rank = List.range' r (buildItems r lis).length := by
  induction lis with
  | nil => intro r; simp [buildItems]
  | cons li rest ih =>
    intro r
    cases h : liProj li with
    | none => simpa [buildItems, h] using ih r
    | some p =>
      obtain ⟨lt, lu, ft⟩ := p
      simp [buildItems, h, ih (r + 1), List.range'_succ]

lemma buildItems_map_titleLink (lis : List HNode) : ∀ r : Nat,
    (buildItems r lis).map (fun it => (it.title, it.link)) =
      lis.filterMap fun li => (liProj li).map fun p => (p.1, p.2.1) := by
  induction lis with
  | nil => intro r; simp [buildItems]
  | cons li rest ih =>
    intro r
    cases h : liProj li with
    | none => simpa [buildItems, h] using ih r
    | some p =>
      obtain ⟨lt, lu, ft⟩ := p
      simp [buildItems, h, ih (r + 1)]

lemma buildItems_mem_classify (lis : List HNode) : ∀ (r : Nat) (it : Item),
    it ∈ buildItems r lis →
    ∃ ft lt, (it.metadata_type, it.metadata_value, it.status_text) = classifyItem ft lt := by
  induction lis with
  | nil => intro r it h; simp [buildItems] at h
  | cons li rest ih =>
    intro r it h
    cases hp : liProj li with
    | none =>
      rw [buildItems, hp] at h
      exact ih r it h
    | some p =>
      obtain ⟨lt, lu, ft⟩ := p
      rw [buildItems, hp] at h
      rcases List.mem_cons.mp h with heq | hmem
      · subst heq
        exact ⟨ft, lt, rfl⟩
      · exact ih (r + 1) it hmem

/-- Claim C8: extraction is a pure, deterministic function of the
document and the capture timestamp; two runs of either extractor on the
same document agree on every field except `fetched_at` (the embedded
extractors are total pure functions, so the no-I/O part holds by
construction). -/
theorem claim_C8_pure_extraction (url t1 t2 : String) (doc : HDoc) :
    scrape_aggregator_list url t1 doc =
      { scrape_aggregator_list url t2 doc with fetched_at := t1 } ∧
    scrape_recruitment_detail url t1 doc =
      { scrape_recruitment_detail url t2 doc with fetched_at := t1 } :=
  ⟨rfl, rfl⟩

/-- Claim C9: on an empty document both extractors return a record with
an absent title and empty items/tables/links instead of failing (the
embedded extractors are total, so no input makes them raise). -/
theorem claim_C9_empty_document (url t : String) :
    scrape_aggregator_list url t [] =
      { url := url, fetched_at := t, title := none, items_count := 0, items := [] } ∧
    scrape_recruitment_detail url t [] =
      { url := url, fetched_at := t, title := none, tables := [],
        links_count := 0, important_links := [] } ∧
    scrape_aggregator_list url t [HNode.text "<<no markup>>"] =
      { url := url, fetched_at := t, title := none, items_count := 0, items := [] } ∧
    scrape_recruitment_detail url t [HNode.text "<<no markup>>"] =
      { url := url, fetched_at := t, title := none, tables := [],
        links_count := 0, important_links := [] } :=
  ⟨rfl, rfl, rfl, rfl⟩

/-- Claim C10: `items_count` equals the length of `items`, `links_count`
equals the number of collected links, the number of important links is
bounded by `links_count`, and on a concrete document the two counts
differ. -/
theorem claim_C10_count_consistency :
    (∀ (url t : String) (doc : HDoc),
      (scrape_aggregator_list url t doc).items_count =
        (scrape_aggregator_list url t doc).items.length ∧
      (scrape_recruitment_detail url t doc).links_count = (collectLinks doc).length ∧
      (scrape_recruitment_detail url t doc).important_links.length ≤
        (scrape_recruitment_detail url t doc).links_count) ∧
    (scrape_recruitment_detail "u" "t" C10doc).important_links.length ≠
      (scrape_recruitment_detail "u" "t" C10doc).links_count := by
  refine ⟨fun url t doc => ⟨rfl, rfl, ?_⟩, by decide⟩
  exact List.length_filter_le _ _

/-- Claim C2: the `items` sequence corresponds exactly, in document
order, to the `li` nodes accepted by the first-anchor filter
(`liProj`), and the ranks are dense and 1-based. -/
theorem claim_C2_items_and_ranks (url t : String) (doc : HDoc) :
    (scrape_aggregator_list url t doc).items.map (fun it => (it.title, it.link)) =
      ((docCss doc (hasTag "li")).filterMap fun li => (liProj li).map fun p => (p.1, p.2.1)) ∧
    (scrape_aggregator_list url t doc).items.map Item.rank =
      List.range' 1 (scrape_aggregator_list url t doc).items.length :=
  ⟨buildItems_map_titleLink _ 1, buildItems_map_rank _ 1⟩

/-- Claim C3: when the full text lacks the `Last Date:` marker,
classification tries `– Out` then `– Pending` in order and otherwise
yields no status; and the single-item scenario
`<li><a href="/x">Job A – Out</a></li>` produces exactly the expected
item. -/
theorem claim_C3_priority_and_scenario :
    (∀ ft lt, strHas ft markerStr = false →
      classifyItem ft lt =
        if strHas lt "– Out" then (some "status", some "out", some "Out")
        else if strHas lt "– Pending" then (some "status", some "pending", some "Pending")
        else (none, none, none)) ∧
    (∀ url t : String, (scrape_aggregator_list url t C3doc).items =
      [{ rank := 1, title := "Job A – Out", link := "/x",
         metadata_type := some "status", metadata_value := some "out",
         status_text := some "Out" }]) := by
  constructor
  · intro ft lt h
    simp [classifyItem, h]
  · intro url t
    exact rfl

/-- Witness for claim C3: the priority rule applied at the scenario's
texts. -/
theorem claim_C3_witness :
    strHas "Job A – Out" markerStr = false ∧
    classifyItem "Job A – Out" "Job A – Out" =
      (if strHas "Job A – Out" "– Out" then (some "status", some "out", some "Out")
       else if strHas "Job A – Out" "– Pending" then (some "status", some "pending", some "Pending")
       else (none, none, none)) :=
  ⟨by decide, claim_C3_priority_and_scenario.1 "Job A – Out" "Job A – Out" (by decide)⟩

/-- Counterexample to claim C1: the full trimmed text of `C1li`
contains the marker `Last Date:` but no date token follows it, and the
accepted item's status is absent (`none`), not `Active` as the claim
requires. -/
theorem claim_C1_counterexample :
    strHas (pyStrip (textContent C1li)) markerStr = true ∧
    lastDateSearch (pyStrip (textContent C1li)) = none ∧
    (scrape_aggregator_list "u" "t" C1doc).items = [C1item] ∧
    ¬ (scrape_aggregator_list "u" "t" C1doc).items.map Item.status_text = [some "Active"] :=
  ⟨by decide, by decide, by decide, by decide⟩

/-- Claim C1 amended: when the full text contains `Last Date:`, the
metadata type is `last_date` in every case; the status is `Active` with
the date detail exactly when the date regex (day of one or more digits,
word month, 4-digit year) matches, and otherwise the status is absent
(not `Active`) and the detail absent.  Every accepted item with
`last_date` metadata is of one of these two shapes. -/
theorem claim_C1_amended :
    (∀ ft lt, strHas ft markerStr = true →
      classifyItem ft lt =
        match lastDateSearch ft with
        | some v => (some "last_date", some v, some "Active")
        | none => (some "last_date", none, none)) ∧
    (∀ (url t : String) (doc : HDoc) (it : Item),
      it ∈ (scrape_aggregator_list url t doc).items →
      it.metadata_type = some "last_date" →
      (∃ v, it.metadata_value = some v ∧ it.status_text = some "Active") ∨
        (it.metadata_value = none ∧ it.status_text = none)) := by
  constructor
  · intro ft lt h
    simp [classifyItem, h]
  · intro url t doc it hmem hmt
    obtain ⟨ft, lt, htrip⟩ := buildItems_mem_classify _ _ _ hmem
    unfold classifyItem at htrip
    split at htrip
    · cases hs : lastDateSearch ft with
      | some v =>
        rw [hs] at htrip
        simp only [Prod.mk.injEq] at htrip
        exact Or.inl ⟨v, htrip.2.1, htrip.2.2⟩
      | none =>
        rw [hs] at htrip
        simp only [Prod.mk.injEq] at htrip
        exact Or.inr ⟨htrip.2.1, htrip.2.2⟩
    · split at htrip
      · simp only [Prod.mk.injEq] at htrip
        rw [hmt] at htrip
        exact absurd htrip.1 (by decide)
      · split at htrip
        · simp only [Prod.mk.injEq] at htrip
          rw [hmt] at htrip
          exact absurd htrip.1 (by decide)
        · simp only [Prod.mk.injEq] at htrip
          rw [hmt] at htrip
          exact absurd htrip.1 (by decide)

/-- Witness for claim C1 (amended): applied at the concrete marked text
with no date token, and at the concrete accepted item of `C1doc`. -/
theorem claim_C1_witness :
    classifyItem "Job Last Date: soon" "Job" =
      (match lastDateSearch "Job Last Date: soon" with
       | some v => (some "last_date", some v, some "Active")
       | none => (some "last_date", none, none)) ∧
    ((∃ v, C1item.metadata_value = some v ∧ C1item.status_text = some "Active") ∨
      (C1item.metadata_value = none ∧ C1item.status_text = none)) :=
  ⟨claim_C1_amended.1 "Job Last Date: soon" "Job" (by decide),
   claim_C1_amended.2 "u" "t" C1doc C1item (by decide) (by decide)⟩

lemma find?_eq_head?_filter {α : Type} (p : α → Bool) (l : List α) :
    l.find? p = (l.filter p).head? := by
  induction l with
  | nil => rfl
  | cons a t ih =>
    by_cases h : p a = true
    · rw [List.find?_cons_of_pos _ h, List.filter_cons_of_pos h, List.head?_cons]
    · rw [List.find?_cons_of_neg _ h, List.filter_cons_of_neg h, ih]

lemma findHeading_eq_spec (anc : List HNode) :
    findHeading anc = specAncestorHeading anc := by
  induction anc with
  | nil => rfl
  | cons p rest ih =>
    cases hfil : (strictDesc p).filter isHeadingNode with
    | nil =>
      have hcf : cssFirst p isHeadingNode = none := by
        rw [cssFirst, find?_eq_head?_filter, hfil]
        rfl
      simp only [findHeading, hcf]
      rw [specAncestorHeading, List.find?_cons_of_neg _ (by simp [hfil]), ih,
        specAncestorHeading]
    | cons h hs =>
      have hcf : cssFirst p isHeadingNode = some h := by
        rw [cssFirst, find?_eq_head?_filter, hfil]
        rfl
      simp only [findHeading, hcf]
      rw [specAncestorHeading, List.find?_cons_of_pos _ (by simp [hfil])]
      simp only [Option.some_bind, hfil, List.head?_cons, Option.map_some']

/-- Counterexample to claim C5: in `C5doc` the only heading in the
table's ancestor subtree comes after the table in document order; the
code still associates it with the table, while the claim's "nearest
preceding heading" is absent. -/
theorem claim_C5_counterexample :
    (scrape_recruitment_detail "u" "t" C5doc).tables = [("After", [["x"]])] ∧
    nearestHeadingBeforeFirstTable C5doc = none :=
  ⟨by decide, by decide⟩

/-- Claim C5 amended: the heading associated with a table is the
trimmed text of the first `h2, h3, h4` descendant of the nearest
ancestor containing any such descendant (absent when no ancestor
yields one); that heading may lie after the table in document order, so
it is not in general the table's nearest preceding heading. -/
theorem claim_C5_amended :
    (∀ anc : List HNode, findHeading anc = specAncestorHeading anc) ∧
    (∀ (url t : String) (doc : HDoc),
      (scrape_recruitment_detail url t doc).tables =
        ((docTablePairs doc).filterMap fun p =>
          match specAncestorHeading p.2 with
          | some h =>
              if h == "" || (extractRows p.1).isEmpty then none
              else some (h, extractRows p.1)
          | none => none).foldl (fun m e => dictInsert e.1 e.2 m) []) := by
  have hfs : findHeading = specAncestorHeading := funext findHeading_eq_spec
  refine ⟨findHeading_eq_spec, fun url t doc => ?_⟩
  show buildTables doc = _
  have hte : tableEntry = fun p =>
      match specAncestorHeading p.2 with
      | some h =>
          if h == "" || (extractRows p.1).isEmpty then none
          else some (h, extractRows p.1)
      | none => none := by
    funext p
    simp only [tableEntry, hfs]
  rw [buildTables, includedTables, hte]

lemma lookup_dictInsert (k k1 : String) (v : List (List String))
    (m : List (String × List (List String))) :
    List.lookup k1 (dictInsert k v m) = if k1 == k then some v else List.lookup k1 m := by
  induction m with
  | nil =>
    by_cases hk : (k1 == k) = true <;> simp [dictInsert, List.lookup_cons, hk]
  | cons e rest ih =>
    obtain ⟨k2, v2⟩ := e
    by_cases h2 : (k2 == k) = true
    · have hk2 : k2 = k := by simpa using h2
      subst hk2
      by_cases hk : (k1 == k2) = true <;> simp [dictInsert, List.lookup_cons, hk]
    · by_cases hk12 : (k1 == k2) = true
      · have : k1 = k2 := by simpa using hk12
        subst this
        have hk1k : (k1 == k) = false := by
          simpa using h2
        simp [dictInsert, h2, List.lookup_cons, hk12, hk1k]
      · simp [dictInsert, h2, List.lookup_cons, hk12, ih]

lemma lookup_foldl_dictInsert (l : List (String × List (List String))) :
    ∀ (m : List (String × List (List String))) (k : String),
      List.lookup k (l.foldl (fun m e => dictInsert e.1 e.2 m) m) =
        (match l.reverse.find? (fun e => k == e.1) with
         | some e => some e.2
         | none => List.lookup k m) := by
  induction l with
  | nil => intro m k; rfl
  | cons e l2 ih =>
    intro m k
    simp only [List.foldl_cons]
    rw [ih, List.reverse_cons, List.find?_append]
    cases hf : l2.reverse.find? (fun e => k == e.1) with
    | some e2 => simp
    | none =>
      simp only [Option.none_or]
      rw [lookup_dictInsert]
      by_cases hk : (k == e.1) = true <;> simp [List.find?_cons, hk]

lemma mem_keys_dictInsert (a k : String) (v : List (List String))
    (m : List (String × List (List String))) :
    a ∈ (dictInsert k v m).map Prod.fst ↔ a = k ∨ a ∈ m.map Prod.fst := by
  induction m with
  | nil => simp [dictInsert]
  | cons e rest ih =>
    obtain ⟨k2, v2⟩ := e
    by_cases h2 : (k2 == k) = true
    · have : k2 = k := by simpa using h2
      subst this
      simp [dictInsert]
    · simp [dictInsert, h2, ih]
      tauto

lemma nodup_keys_dictInsert (k : String) (v : List (List String))
    (m : List (String × List (List String)))
    (h : (m.map Prod.fst).Nodup) : ((dictInsert k v m).map Prod.fst).Nodup := by
  induction m with
  | nil => simp [dictInsert]
  | cons e rest ih =>
    obtain ⟨k2, v2⟩ := e
    simp only [List.map_cons, List.nodup_cons] at h
    by_cases h2 : (k2 == k) = true
    · have : k2 = k := by simpa using h2
      subst this
      rw [dictInsert, if_pos h2]
      simp only [List.map_cons, List.nodup_cons]
      exact ⟨h.1, h.2⟩
    · have hne : k2 ≠ k := by simpa using h2
      rw [dictInsert, if_neg h2]
      simp only [List.map_cons, List.nodup_cons]
      refine ⟨?_, ih h.2⟩
      rw [mem_keys_dictInsert]
      rintro (rfl | hm)
      · exact hne rfl
      · exact h.1 hm

lemma nodup_keys_foldl (l : List (String × List (List String))) :
    ∀ m, (m.map Prod.fst).Nodup →
      ((l.foldl (fun m e => dictInsert e.1 e.2 m) m).map Prod.fst).Nodup := by
  induction l with
  | nil => intro m h; exact h
  | cons e l2 ih =>
    intro m h
    exact ih _ (nodup_keys_dictInsert _ _ _ h)

/-- Claim C6: the `tables` mapping has unique keys, and the value bound
to a heading is the rows of the last included table in document order
resolving to that heading (later tables overwrite earlier ones). -/
theorem claim_C6_last_table_wins (url t : String) (doc : HDoc) (k : String) :
    List.lookup k (scrape_recruitment_detail url t doc).tables =
      (((includedTables doc).reverse.find? fun e => k == e.1).map Prod.snd) ∧
    ((scrape_recruitment_detail url t doc).tables.map Prod.fst).Nodup := by
  constructor
  · show List.lookup k (buildTables doc) = _
    rw [buildTables, lookup_foldl_dictInsert]
    cases hf : (includedTables doc).reverse.find? (fun e => k == e.1) <;> simp [hf]
  · show ((buildTables doc).map Prod.fst).Nodup
    exact nodup_keys_foldl _ _ (by simp)

/-- Counterexample to claim C4: the table of `C4doc` has one extracted
row and a resolved heading (the whitespace-only `h2` trims to `""`),
yet it does not appear in the `tables` mapping, because Python's
`if rows and heading` treats the empty-string heading as falsy. -/
theorem claim_C4_counterexample :
    docTablePairs C4doc = [(C4table, [C4div])] ∧
    findHeading [C4div] = some "" ∧
    extractRows C4table = [["x"]] ∧
    (scrape_recruitment_detail "u" "t" C4doc).tables = [] :=
  ⟨rfl, by decide, by decide, by decide⟩

/-- Claim C4 amended: a heading key appears in the `tables` mapping if
and only if it is non-empty and some table in the document resolves to
it with at least one extracted row (a table with zero rows never
appears regardless of heading, a table with no — or an empty —
resolved heading never appears regardless of rows). -/
theorem claim_C4_table_inclusion (url t : String) (doc : HDoc) (k : String) :
    (List.lookup k (scrape_recruitment_detail url t doc).tables).isSome = true ↔
      k ≠ "" ∧ ∃ p ∈ docTablePairs doc,
        findHeading p.2 = some k ∧ extractRows p.1 ≠ [] := by
  have hiff1 : (List.lookup k (buildTables doc)).isSome = true ↔
      ∃ e ∈ includedTables doc, (k == e.1) = true := by
    rw [buildTables, lookup_foldl_dictInsert]
    cases hf : (includedTables doc).reverse.find? (fun e => k == e.1) with
    | none =>
      simp only [List.lookup_nil, Option.isSome_none, Bool.false_eq_true, false_iff]
      rintro ⟨e, he, hk⟩
      have := List.find?_eq_none.mp hf e (List.mem_reverse.mpr he)
      simp [hk] at this
    | some e =>
      have hsat := List.find?_some hf
      have hmem := List.mem_of_find?_eq_some hf
      simp only [Option.isSome_some, true_iff]
      exact ⟨e, List.mem_reverse.mp hmem, hsat⟩
  refine Iff.trans hiff1 ?_
  constructor
  · rintro ⟨e, he, hk⟩
    have hk1 : k = e.1 := by simpa using hk
    obtain ⟨p, hp, hpe⟩ := List.mem_filterMap.mp he
    cases hh : findHeading p.2 with
    | none =>
      simp only [tableEntry, hh] at hpe
      exact Option.noConfusion hpe
    | some h =>
      simp only [tableEntry, hh] at hpe
      by_cases hcond : (h == "" || (extractRows p.1).isEmpty) = true
      · rw [if_pos hcond] at hpe
        exact absurd hpe (by simp)
      · rw [if_neg hcond] at hpe
        obtain rfl := Option.some.inj hpe
        have hk1' : k = h := hk1
        simp only [Bool.or_eq_true, not_or] at hcond
        refine ⟨?_, p, hp, ?_, ?_⟩
        · rw [hk1']
          simpa using hcond.1
        · rw [hh, hk1']
        · have hne : (extractRows p.1).isEmpty = false := by
            simpa using hcond.2
          simpa [List.isEmpty_iff] using hne
  · rintro ⟨hkne, p, hp, hh, hrows⟩
    refine ⟨(k, extractRows p.1), List.mem_filterMap.mpr ⟨p, hp, ?_⟩, by simp⟩
    simp only [tableEntry, hh]
    rw [if_neg]
    simp only [Bool.or_eq_true, not_or]
    constructor
    · simpa using hkne
    · simpa [List.isEmpty_iff] using hrows

/-- Witness for claim C4 (amended): the key `Important Dates` is
present for the spec's table scenario, and the equivalence applied
there yields a concrete included table. -/
theorem claim_C4_witness :
    "Important Dates" ≠ "" ∧ ∃ p ∈ docTablePairs C4wdoc,
      findHeading p.2 = some "Important Dates" ∧ extractRows p.1 ≠ [] :=
  (claim_C4_table_inclusion "u" "t" C4wdoc "Important Dates").mp (by decide)

/-- Counterexample to claim C7: the anchor `C7a` is an `a[href]` node
whose text satisfies the claim's importance condition (keyword and
length above 3), yet its href trims to the empty string, so the code
never collects it and `important_links` is empty. -/
theorem claim_C7_counterexample :
    claimImportant (pyStrip (textContent C7a)) = true ∧
    docCss C7doc isAHref = [C7a] ∧
    (scrape_recruitment_detail "u" "t" C7doc).important_links = [] :=
  ⟨by decide, rfl, by decide⟩

lemma important_filter_filterMap (l : List HNode) :
    ((l.filterMap linkOf).filter fun lr => isImportantText lr.text) =
      l.filterMap fun a =>
        if pyStrip (textContent a) != "" && pyStrip (attrOr "href" a) != "" &&
            decide (3 < (pyStrip (textContent a)).length) &&
            isImportantText (pyStrip (textContent a))
        then some ⟨pyStrip (textContent a), pyStrip (attrOr "href" a)⟩ else none := by
  induction l with
  | nil => rfl
  | cons a t ih =>
    by_cases hc : (pyStrip (textContent a) != "" && pyStrip (attrOr "href" a) != "" &&
        decide (3 < (pyStrip (textContent a)).length)) = true
    · have hl : linkOf a = some ⟨pyStrip (textContent a), pyStrip (attrOr "href" a)⟩ := by
        rw [linkOf, if_pos hc]
      by_cases him : isImportantText (pyStrip (textContent a)) = true
      · rw [List.filterMap_cons, hl, List.filterMap_cons,
          if_pos (by simp [Bool.and_eq_true] at hc ⊢; exact ⟨hc, by simpa using him⟩),
          List.filter_cons_of_pos (by simpa using him), ih]
      · have himf : isImportantText (pyStrip (textContent a)) = false := by
          simpa using him
        rw [List.filterMap_cons, hl, List.filterMap_cons,
          if_neg (by simp [himf]),
          List.filter_cons_of_neg (by simpa using him), ih]
    · have hl : linkOf a = none := by
        rw [linkOf, if_neg hc]
      have hcf : (pyStrip (textContent a) != "" && pyStrip (attrOr "href" a) != "" &&
          decide (3 < (pyStrip (textContent a)).length)) = false := by
        simpa using hc
      rw [List.filterMap_cons, hl, List.filterMap_cons, if_neg (by simp [hcf]), ih]

/-- Claim C7 amended: an `a[href]` node contributes to
`important_links` if and only if its trimmed text and trimmed href are
non-empty, the text is longer than 3 characters, and the lowercase text
contains one of the keywords; `important_links` is exactly that
subsequence of the document's anchors, `Apply Online` passes the
keyword-and-length test, and every important link's text is longer
than 3 characters (so `OK` can never be one). -/
theorem claim_C7_amended :
    (∀ (url t : String) (doc : HDoc),
      (scrape_recruitment_detail url t doc).important_links =
        (docCss doc isAHref).filterMap fun a =>
          if pyStrip (textContent a) != "" && pyStrip (attrOr "href" a) != "" &&
              decide (3 < (pyStrip (textContent a)).length) &&
              isImportantText (pyStrip (textContent a))
          then some ⟨pyStrip (textContent a), pyStrip (attrOr "href" a)⟩ else none) ∧
    isImportantText "Apply Online" = true ∧
    ¬ 3 < ("OK" : String).length ∧
    (∀ (url t : String) (doc : HDoc) (l : LinkRec),
      l ∈ (scrape_recruitment_detail url t doc).important_links →
        3 < l.text.length ∧ isImportantText l.text = true) := by
  refine ⟨fun url t doc => ?_, by decide, by decide, fun url t doc l hl => ?_⟩
  · show ((collectLinks doc).filter fun lr => isImportantText lr.text) = _
    rw [collectLinks, important_filter_filterMap]
  · have hl2 : l ∈ collectLinks doc ∧ isImportantText l.text = true := by
      have := List.mem_filter.mp hl
      simpa using this
    obtain ⟨hmem, him⟩ := hl2
    obtain ⟨a, _, ha⟩ := List.mem_filterMap.mp hmem
    by_cases hc : (pyStrip (textContent a) != "" && pyStrip (attrOr "href" a) != "" &&
        decide (3 < (pyStrip (textContent a)).length)) = true
    · rw [linkOf, if_pos hc] at ha
      obtain rfl := Option.some.inj ha
      have hc2 := hc
      simp only [Bool.and_eq_true, decide_eq_true_eq] at hc2
      exact ⟨hc2.2, him⟩
    · rw [linkOf, if_neg hc] at ha
      exact Option.noConfusion ha

/-- Witness for claim C7 (amended): applied to the concrete document
`C7wdoc`, whose first anchor is the spec's `Apply Online` scenario. -/
theorem claim_C7_witness :
    3 < (LinkRec.text ⟨"Apply Online", "/z"⟩).length ∧
      isImportantText (LinkRec.text ⟨"Apply Online", "/z"⟩) = true :=
  claim_C7_amended.2.2.2 "u" "t" C7wdoc ⟨"Apply Online", "/z"⟩ (by decide)
